import Mathlib

/-!
Shallow embedding of the BD_Analyzer core (src/BD_Analyzer.py): the
fixed-point coordinate codec (`parseNumber`, `packPos`, `prgPos`), the
machining-log row loop of `loadBackDrillData`, the outlier detector
`calc_outliers`, and the shift detector (`judgeShift`, the program-sampling
half of `calc_shift`).  Numeric cells are modelled as exact rationals and
Python `int` as `ℤ`; Python `round` is round-half-to-even, modelled by
`pyRound`.  Exceptions are modelled with `Except PErr`.
-/

set_option maxRecDepth 1000000

instance {ε α : Type} [DecidableEq ε] [DecidableEq α] : DecidableEq (Except ε α) :=
  fun x y =>
    match x, y with
    | .ok a, .ok b =>
      if h : a = b then .isTrue (h ▸ rfl) else .isFalse (fun hc => h (Except.ok.inj hc))
    | .error a, .error b =>
      if h : a = b then .isTrue (h ▸ rfl) else .isFalse (fun hc => h (Except.error.inj hc))
    | .ok _, .error _ => .isFalse (fun hc => Except.noConfusion hc)
    | .error _, .ok _ => .isFalse (fun hc => Except.noConfusion hc)

/-- Error kinds raised by the source (`ValueError` sites are split by the
condition that raises them; `struct.error` is `structErr`). -/
inductive PErr where
  | formatErr   -- unparseable numeric text (float() ValueError / IndexError)
  | rangeErr    -- prgPos: coordinate too large for the program field
  | namingErr   -- loadBackDrillData: filename lacks the posMMDD.dat token
  | notFoundErr -- loadBackDrillData: file does not exist
  | schemaErr   -- loadBackDrillData: unrecognized header
  | structErr   -- struct.pack('<ii', ...): value outside int32
deriving DecidableEq, Repr

/-- Python 3 `round` to the nearest integer, ties to even, on exact
rationals. -/
def pyRound (q : ℚ) : ℤ :=
  let f : ℤ := ⌊q⌋
  let r : ℚ := q - f
  if r < 1/2 then f
  else if 1/2 < r then f + 1
  else if f % 2 = 0 then f else f + 1

def isDigitCh (c : Char) : Bool := decide ('0' ≤ c) && decide (c ≤ '9')

/-- Whitespace as in Python's `\s` (ASCII range). -/
def pyIsSpace (c : Char) : Bool :=
  c = ' ' || c = '\t' || c = '\n' || c = '\r' || c = '\x0b' || c = '\x0c'

/-- Value of a decimal digit string (most significant first). -/
def digitsToNat (l : List Char) : ℕ :=
  l.foldl (fun a c => 10 * a + (c.toNat - 48)) 0

def takeDigits (l : List Char) : List Char × List Char :=
  (l.takeWhile isDigitCh, l.dropWhile isDigitCh)

/-- Python `float(s)` on the grammar `[+-]? digits [. digits]?` (at least one
digit), as an exact rational; anything else raises `ValueError`. -/
def pyFloat (cs : List Char) : Except PErr ℚ :=
  let (sign, rest) : ℚ × List Char :=
    match cs with
    | '-' :: r => (-1, r)
    | '+' :: r => (1, r)
    | r => (1, r)
  let (ip, r1) := takeDigits rest
  match r1 with
  | [] =>
    if ip = [] then .error .formatErr
    else .ok (sign * (digitsToNat ip : ℚ))
  | '.' :: r2 =>
    let (fp, r3) := takeDigits r2
    if r3 = [] then
      if ip = [] ∧ fp = [] then .error .formatErr
      else .ok (sign * ((digitsToNat ip : ℚ) + (digitsToNat fp : ℚ) / 10 ^ fp.length))
    else .error .formatErr
  | _ => .error .formatErr

/-- `parseNumber(s, length, lead_zero)` from the source: decode Excellon
fixed-point coordinate text.  Empty input decodes to 0; a string with a
decimal point is parsed as a plain decimal; otherwise the sign is stripped
and the digits are scaled by the lead-zero / trail-zero rule. -/
def parseNumber (s : String) (length : ℕ) (lead_zero : Bool) : Except PErr ℚ :=
  if s.data = [] then .ok 0
  else
    let cs := (s.data.dropWhile pyIsSpace).reverse.dropWhile pyIsSpace |>.reverse
    if cs.contains '.' then pyFloat cs
    else
      let (sign, body) : ℚ × List Char :=
        match cs with
        | '-' :: r => (-1, r)
        | r => (1, r)
      if lead_zero then
        if body.length < length then do
          let v ← pyFloat body
          .ok (sign * v * 10 ^ (length - body.length))
        else do
          let v ← pyFloat (body.take length ++ '.' :: body.drop length)
          .ok (sign * v)
      else do
        let v ← pyFloat body
        .ok (sign * v / 10 ^ length)

/-- `getIntPos`: coordinate scaled by 1000 and rounded to `int`. -/
def getIntPos (x y : ℚ) : ℤ × ℤ := (pyRound (x * 1000), pyRound (y * 1000))

def int32Lo : ℤ := -(2 ^ 31)

def int32Hi : ℤ := 2 ^ 31 - 1

/-- The four little-endian bytes of an `int32` as packed by `struct.pack`
with format `<i`. -/
def bytesLE4 (v : ℤ) : List ℕ :=
  let u := (v % 2 ^ 32).toNat
  [u % 256, u / 256 % 256, u / 65536 % 256, u / 16777216 % 256]

/-- `struct.pack` with format `<ii` on `(xi, yi)`: 8 bytes, or
`struct.error` when either value is outside the signed 32-bit range. -/
def packPosInts (xi yi : ℤ) : Except PErr (List ℕ) :=
  if int32Lo ≤ xi ∧ xi ≤ int32Hi ∧ int32Lo ≤ yi ∧ yi ≤ int32Hi then
    .ok (bytesLE4 xi ++ bytesLE4 yi)
  else .error .structErr

/-- An argument to `packPos`: either a number or coordinate text. -/
inductive PosArg where
  | num (q : ℚ)
  | txt (s : String)

/-- `packPos(x, y)`: decode textual arguments with
`parseNumber(_, 3, True)`, scale by 1000, round, pack with format `<ii`. -/
def packPos (x y : PosArg) : Except PErr (List ℕ) := do
  let xq ← match x with | .num q => pure q | .txt s => parseNumber s 3 true
  let yq ← match y with | .num q => pure q | .txt s => parseNumber s 3 true
  packPosInts (pyRound (xq * 1000)) (pyRound (yq * 1000))

/-- Left-pad with the digit zero to width 6, as `str(n).rjust(6, zero)`. -/
def padLeft6 (l : List Char) : List Char := List.replicate (6 - l.length) '0' ++ l

/-- Strip trailing zero digits, as `.rstrip(zero)`. -/
def rstripZeros (l : List Char) : List Char := (l.reverse.dropWhile (· = '0')).reverse

/-- The digit text `prgPos` emits for one coordinate: `abs(int(round(v*1000)))`
in decimal, left-padded to 6 digits, trailing zeros stripped, collapsing to
`"0"` when everything was stripped. -/
def coordDigits (v : ℚ) : List Char :=
  let d := rstripZeros (padLeft6 (Nat.repr (pyRound (v * 1000)).natAbs).data)
  if d = [] then ['0'] else d

/-- `prgPos(x, y)`: format a coordinate pair as a program `X...Y...` word;
raises when either absolute coordinate reaches 1000. -/
def prgPos (x y : ℚ) : Except PErr String :=
  if 1000 ≤ |x| ∨ 1000 ≤ |y| then .error .rangeErr
  else
    .ok (String.mk
      ('X' :: ((if x < 0 then ['-'] else []) ++ coordDigits x ++
        'Y' :: ((if y < 0 then ['-'] else []) ++ coordDigits y))))

/-- One data row of a Schmoll machining-log file, after the csv split:
the timestamp cell, the hole-counter cell already converted by `int()`,
the numeric X/Y cells (columns 3 and 4), and the raw numeric values of the
axis columns 5 onward (`fields`), in order. -/
structure LogRow where
  time : String
  counter : ℤ
  x : ℚ
  y : ℚ
  fields : List ℚ
deriving DecidableEq, Repr

/-- A stored machining record: columns 0..4 plus the coerced axis columns
5..22 (`fields`, index i holding column i+5). -/
structure MRec where
  time : String
  counter : ℤ
  x : ℚ
  y : ℚ
  fields : List (Option ℚ)
deriving DecidableEq, Repr

/-- The numeric-cell coercion of `loadBackDrillData` applied to columns 5
onward: a value of exactly 0 becomes `None` (absent), then the row is padded
with `None` up to 23 columns (18 axis cells). -/
def coerceFields (l : List ℚ) : List (Option ℚ) :=
  (l.map fun v => if v = 0 then none else some v) ++ List.replicate (18 - l.length) none

/-- Python `a or b` on axis-cell values (`None` and `0` are falsy). -/
def pyOr (a b : Option ℚ) : Option ℚ :=
  match a with
  | some v => if v = 0 then b else some v
  | none => b

/-- The merge `r0[c] = r[c] or r0[c]` for columns 5..22: `cur` is the
current row's axis cells, `prev` the stored record's. -/
def mergeFields (cur prev : List (Option ℚ)) : List (Option ℚ) :=
  (List.range prev.length).map fun i =>
    if i < 18 then pyOr (cur.getD i none) (prev.getD i none) else prev.getD i none

/-- The decreasing-counter handling of `loadBackDrillData`
(`if last_H and current_H < last_H: ...`): given the last raw counter
(`None` before any row is appended), the running `base` and the current raw
counter, return the new `base` and whether the row is flagged as a new
logical program run.  A `last_H` of 0 is falsy in Python, so the whole
check is skipped then, exactly like an unset `last_H`. -/
def counterStep (lastH : Option ℤ) (base current : ℤ) : ℤ × Bool :=
  match lastH with
  | some lh =>
    if lh ≠ 0 ∧ current < lh then
      if lh = 65535 then (base + 65536, false) else (0, true)
    else (base, false)
  | none => (base, false)

/-- Fold state of the row loop of `loadBackDrillData`. -/
structure LoadState where
  lastH : Option ℤ
  base : ℤ
  result : List MRec
  flags : List (String × ℕ)
deriving DecidableEq, Repr

/-- Python dict assignment `flags[k] = v` on an association list. -/
def flagsInsert (fl : List (String × ℕ)) (k : String) (v : ℕ) : List (String × ℕ) :=
  if fl.any (fun p => p.1 = k) then fl.map (fun p => if p.1 = k then (k, v) else p)
  else fl ++ [(k, v)]

/-- One iteration of the row loop of `loadBackDrillData`: unwrap the
counter, coerce the axis cells, then either merge into the last stored
record (same unwrapped counter, X and Y — the row is discarded and
`last_H` / `flags` are not updated, but the new `base` persists) or append
the row, update `last_H` to the raw counter and record a run boundary when
`flags` is still empty or the row was flagged. -/
def processRow (month day : String) (st : LoadState) (r : LogRow) : LoadState :=
  let time := month ++ "/" ++ day ++ " " ++ r.time
  let (base, flag) := counterStep st.lastH st.base r.counter
  let hN := r.counter + base
  let fields := coerceFields r.fields
  let merged :=
    match st.result.getLast? with
    | some r0 => if r0.counter = hN ∧ r0.x = r.x ∧ r0.y = r.y then some r0 else none
    | none => none
  match merged with
  | some r0 =>
    ⟨st.lastH, base,
      st.result.dropLast ++ [⟨r0.time, r0.counter, r0.x, r0.y, mergeFields fields r0.fields⟩],
      st.flags⟩
  | none =>
    let newRec : MRec := ⟨time, hN, r.x, r.y, fields⟩
    let result := st.result ++ [newRec]
    let flags :=
      if st.flags.isEmpty ∨ flag then flagsInsert st.flags time (result.length - 1)
      else st.flags
    ⟨some r.counter, base, result, flags⟩

/-- The row loop of `loadBackDrillData` over the data rows of one file. -/
def processRows (month day : String) (st : LoadState) (rows : List LogRow) : LoadState :=
  rows.foldl (processRow month day) st

def initLoadState : LoadState := ⟨none, 0, [], []⟩

/-- The filename pattern `.*pos(\d\d)(\d\d)\.dat$` of `loadBackDrillData`:
the name must end in `pos`, four digits, `.dat`; the two digit pairs are
the month and day. -/
def fileNameDate (s : String) : Option (String × String) :=
  let cs := s.data
  match cs.drop (cs.length - 11) with
  | ['p', 'o', 's', d1, d2, d3, d4, '.', 'd', 'a', 't'] =>
    if isDigitCh d1 && isDigitCh d2 && isDigitCh d3 && isDigitCh d4 then
      some (String.mk [d1, d2], String.mk [d3, d4])
    else none
  | _ => none

/-- The per-file prechecks of `loadBackDrillData`, in source order: the
filename match is computed first, but the missing-file error is raised
before the missing-date-token error. -/
def checkLogFile (fileExists : Bool) (name : String) : Except PErr (String × String) :=
  let m := fileNameDate name
  if ¬ fileExists then .error .notFoundErr
  else
    match m with
    | some md => .ok md
    | none => .error .namingErr

/-- Axis cell lookup `data[i][z]` for the axis columns z = 6, 9, ..., 21
(`MRec.fields` index z - 5). -/
def cellAt (r : MRec) (z : ℕ) : Option ℚ := r.fields.getD (z - 5) none

def recAt (data : List MRec) (i : ℕ) : MRec := data.getD i ⟨"", 0, 0, 0, []⟩

/-- Truthiness of an axis cell (`None` and `0` are falsy). -/
def truthyQ : Option ℚ → Bool
  | none => false
  | some v => decide (v ≠ 0)

/-- Increment the outlier weight of record `i`, axis column `col`. -/
def bumpW (w : List (List ℕ)) (i col : ℕ) : List (List ℕ) :=
  w.set i ((w.getD i []).set col ((w.getD i []).getD col 0 + 1))

/-- The inner body of `calc_outliers` for one pair `(i, i+step)` and one
axis column `z`: when both cells are truthy and differ by more than `tol`,
both records' weights for that axis are incremented.  The subtraction and
comparison are exact here; the program performs them in binary64, so
claims about concrete traces must supply the cells and the tolerance as
the exact rational values of the doubles involved and are faithful when
the doubles' differences are exactly representable (as they are whenever
all cells share one power-of-two binade, by Sterbenz cancellation). -/
def outlierCmp (data : List MRec) (tol : ℚ) (step i z : ℕ) (w : List (List ℕ)) :
    List (List ℕ) :=
  let col := (z - 6) / 3
  let a := cellAt (recAt data i) z
  let b := cellAt (recAt data (i + step)) z
  if truthyQ a ∧ truthyQ b ∧ tol < |a.getD 0 - b.getD 0| then
    bumpW (bumpW w i col) (i + step) col
  else w

/-- One `step` pass of `calc_outliers`: all pairs `(i, i+step)` with
`i + step < length`, all six axis columns 6, 9, ..., 21. -/
def outlierPass (data : List MRec) (tol : ℚ) (step : ℕ) (w : List (List ℕ)) :
    List (List ℕ) :=
  (List.range (data.length - step)).foldl
    (fun w i => [6, 9, 12, 15, 18, 21].foldl (fun w z => outlierCmp data tol step i z w) w)
    w

/-- `calc_outliers(data, lag, tol)`: six zero counters per record, then one
pass per `step` in 1..lag. -/
def calc_outliers (data : List MRec) (lag : ℕ) (tol : ℚ) : List (List ℕ) :=
  (List.range' 1 lag).foldl (fun w step => outlierPass data tol step w)
    (List.replicate data.length (List.replicate 6 0))

/-- `judgeShift(data_pos, prg_pos)` on integer-scaled coordinate pairs.
`none` models the `TypeError` crash of the source on two empty lists (the
final `shiftX/1000` with `shiftX` still `None`); `some none` models the
falsy returns `False` (length mismatch) and `None` (inconsistent offsets);
`some (some (dx, dy))` is a found offset in real units. -/
def judgeShift (dataPos prgPosL : List (ℤ × ℤ)) : Option (Option (ℚ × ℚ)) :=
  if dataPos.length ≠ prgPosL.length then some none
  else
    match dataPos.zip prgPosL with
    | [] => none
    | (m, n) :: rest =>
      let sX := m.1 - n.1
      let sY := m.2 + n.2
      if rest.all (fun p => p.1.1 - p.2.1 = sX ∧ p.1.2 + p.2.2 = sY) then
        some (some ((sX : ℚ) / 1000, (sY : ℚ) / 1000))
      else some none

/-- The tool pattern `^T0?[2-9]$` of `calc_shift`. -/
def toolShiftMatch (s : String) : Bool :=
  match s.data with
  | [c0, c1] => c0 = 'T' && '2' ≤ c1 && c1 ≤ '9'
  | [c0, c1, c2] => c0 = 'T' && c1 = '0' && '2' ≤ c2 && c2 ≤ '9'
  | _ => false

/-- The general tool-select pattern `^T\d{1,2}$` of `loadPrgData`. -/
def toolSelectMatch (s : String) : Bool :=
  match s.data with
  | [c0, c1] => c0 = 'T' && isDigitCh c1
  | [c0, c1, c2] => c0 = 'T' && isDigitCh c1 && isDigitCh c2
  | _ => false

/-- Optional `-` sign followed by greedy digits, as in the groups of
`^X(-?\d*)Y(-?\d*)$`. -/
def signDigits (l : List Char) : List Char × List Char :=
  match l with
  | c :: r => if c = '-' then
      let (d, r') := takeDigits r
      ('-' :: d, r')
    else takeDigits l
  | [] => ([], [])

/-- The position pattern `^X(-?\d*)Y(-?\d*)$`: returns the two groups. -/
def posMatch (s : String) : Option (String × String) :=
  match s.data with
  | [] => none
  | c :: rest =>
    if c = 'X' then
      let (sx, r1) := signDigits rest
      match r1 with
      | [] => none
      | c2 :: r2 =>
        if c2 = 'Y' then
          let (sy, r3) := signDigits r2
          if r3 = [] then some (String.mk sx, String.mk sy) else none
        else none
    else none

/-- One line of the program scan of `calc_shift`: a `T0?[2-9]` line sets the
current-tool flag (and nothing ever clears it); with the flag set, a
position line is decoded with `parseNumber(_, 3, True)` and appended as an
integer-scaled pair. -/
def lineStep (cur : Bool) (acc : List (ℤ × ℤ)) (l : String) :
    Except PErr (Bool × List (ℤ × ℤ)) :=
  if toolShiftMatch l then .ok (true, acc)
  else if cur then
    match posMatch l with
    | some (sx, sy) => do
      let qx ← parseNumber sx 3 true
      let qy ← parseNumber sy 3 true
      .ok (cur, acc ++ [(pyRound (qx * 1000), pyRound (qy * 1000))])
    | none => .ok (cur, acc)
  else .ok (cur, acc)

/-- The program scan loop of `calc_shift`: after each line, stop as soon as
exactly `sample` positions have been collected. -/
def samplePrgGo (sample : ℕ) : List String → Bool → List (ℤ × ℤ) →
    Except PErr (List (ℤ × ℤ))
  | [], _, acc => .ok acc
  | l :: ls, cur, acc => do
    let s ← lineStep cur acc l
    if s.2.length = sample then .ok s.2 else samplePrgGo sample ls s.1 s.2

/-- The sampled program positions of `calc_shift(prg_file, data, sample)`:
the scan of the program lines with an initially unset current tool. -/
def samplePrgPos (ls : List String) (sample : ℕ) : Except PErr (List (ℤ × ℤ)) :=
  samplePrgGo sample ls false []

/-- Modelled from the spec (for the amended C6 statement): the lines after
the first `T0?[2-9]` tool-select line; the sampler collects position lines
only from this tail. -/
def enabledTail : List String → List String
  | [] => []
  | l :: ls => if toolShiftMatch l then ls else enabledTail ls

/-- The position-line groups of a line list, in order. -/
def posLinesOf (ls : List String) : List (String × String) := ls.filterMap posMatch

/-- Decode one position-line group pair as `calc_shift` does. -/
def parsePos (p : String × String) : Except PErr (ℤ × ℤ) := do
  let qx ← parseNumber p.1 3 true
  let qy ← parseNumber p.2 3 true
  .ok (pyRound (qx * 1000), pyRound (qy * 1000))

example : parseNumber "001" 3 true = .ok 1 := by with_unfolding_all decide
example : parseNumber "-25" 3 true = .ok (-250) := by with_unfolding_all decide
example : parseNumber "1.5" 3 true = .ok (mkRat 3 2) := by with_unfolding_all decide
example : pyRound (mkRat 3 2) = 2 := by with_unfolding_all decide
example : pyRound (mkRat 5 2) = 2 := by with_unfolding_all decide
example : prgPos (mkRat 1 2) 0 = .ok "X0005Y0" := by with_unfolding_all decide
example : prgPos (-1200) 0 = .error .rangeErr := by with_unfolding_all decide

/-! ## Fixtures used by the concrete parts of the claims -/

/-- Five log rows whose raw hole counters are 65533, 65534, 65535, 2, 3,
with pairwise distinct X so no merge fires. -/
def c1rows : List LogRow :=
  [⟨"a", 65533, 1, 0, []⟩, ⟨"b", 65534, 2, 0, []⟩, ⟨"c", 65535, 3, 0, []⟩,
   ⟨"d", 2, 4, 0, []⟩, ⟨"e", 3, 5, 0, []⟩]

/-- Two rows for the same hole (same counter, X, Y) whose first axis column
is present in both: 1 in the first row, 2 in the second. -/
def c2rows : List LogRow := [⟨"a", 7, 1, 2, [1]⟩, ⟨"b", 7, 1, 2, [2]⟩]

/-- The exact value of the binary64 double nearest to 1.02
(1.0200000000000000177635683940025046…). -/
def fl102 : ℚ := mkRat 2296835809958953 2251799813685248

/-- The exact value of the binary64 double nearest to 1.51
(1.5100000000000000088817841970012523…). -/
def fl151 : ℚ := mkRat 6800435437329449 4503599627370496

/-- The exact value of the binary64 double nearest to 0.01
(0.0100000000000000002081668171172168…). -/
def fl001 : ℚ := mkRat 5764607523034235 576460752303423488

/-- Four records whose single used depth axis (column 6) holds the float
values 1.0, 1.02, 1.5, 1.51 as the program stores them: the exact values
of the nearest binary64 doubles (1.0 and 1.5 are exact).  All other axis
cells are absent.  Every pairwise difference of these doubles is a
multiple of 2⁻⁵² smaller than 1, hence itself exactly representable, so
binary64 subtraction of these cells is exact and the model's exact
comparison reproduces the program's float comparison on this data. -/
def c3data : List MRec :=
  [⟨"a", 1, 0, 0, [none, some 1]⟩, ⟨"b", 2, 0, 0, [none, some fl102]⟩,
   ⟨"c", 3, 0, 0, [none, some (mkRat 3 2)]⟩, ⟨"d", 4, 0, 0, [none, some fl151]⟩]

/-! ## C1: counter unwrapping -/

/-- Claim C1: on consecutive rows with raw counters 65533, 65534, 65535,
2, 3 (no merges) the stored unwrapped counters are 65533, 65534, 65535,
65538, 65539 and no run boundary is flagged (only the initial first-row
entry exists); in general, for a non-negative current counter, a decrease
is a 16-bit wraparound (base + 65536, no flag) exactly when the previously
stored raw counter is 65535, any other decrease resets the base to 0 and
flags the row, and a non-decrease leaves the base and flag alone. -/
theorem counter_unwrap_c1 :
    ((processRows "01" "02" initLoadState c1rows).result.map MRec.counter =
        [65533, 65534, 65535, 65538, 65539] ∧
      (processRows "01" "02" initLoadState c1rows).flags = [("01/02 a", 0)]) ∧
    ∀ lh base current : ℤ, 0 ≤ current →
      (current < lh → lh = 65535 → counterStep (some lh) base current = (base + 65536, false)) ∧
      (current < lh → lh ≠ 65535 → counterStep (some lh) base current = (0, true)) ∧
      (lh ≤ current → counterStep (some lh) base current = (base, false)) := by
  refine ⟨by with_unfolding_all decide, ?_⟩
  intro lh base current hc
  refine ⟨?_, ?_, ?_⟩
  · intro hlt he
    subst he
    simp [counterStep, hlt]
  · intro hlt hne65
    have hne : lh ≠ 0 := by omega
    simp [counterStep, hne, hlt, hne65]
  · intro hge
    have hnlt : ¬ current < lh := by omega
    simp [counterStep, hnlt]

theorem counter_unwrap_c1_witness :
    counterStep (some 65535) 0 2 = (65536, false) ∧
    counterStep (some 20) 9 5 = (0, true) ∧
    counterStep (some 20) 9 30 = (9, false) :=
  ⟨by simpa using (counter_unwrap_c1.2 65535 0 2 (by norm_num)).1 (by norm_num) rfl,
   (counter_unwrap_c1.2 20 9 5 (by norm_num)).2.1 (by norm_num) (by norm_num),
   (counter_unwrap_c1.2 20 9 30 (by norm_num)).2.2 (by norm_num)⟩

/-! ## C9: a stored raw counter of 0 disables the decreasing-counter check -/

/-- Claim C9: when the last stored raw counter is 0, the decreasing-counter
check is skipped for the next row exactly as if no counter had been stored:
for every base and every current counter value the step neither
wrap-adjusts the base nor flags a run boundary. -/
theorem counter_zero_guard_c9 :
    ∀ (base current : ℤ),
      counterStep (some 0) base current = counterStep none base current ∧
      counterStep (some 0) base current = (base, false) := by
  intro base current
  constructor <;> simp [counterStep]

/-! ## C2: the duplicate-record merge rule -/

/-- Counterexample to claim C2: the claim says a field already present in
the previous record is never overwritten by the current row.  On `c2rows`
the first row stores axis column 5 as 1; merging the second row (same
counter, X, Y; column 5 = 2) overwrites it with 2 (the source computes
`r0[c] = r[c] or r0[c]`, so a truthy current value wins).  The row is
still discarded (one record remains). -/
theorem merge_prev_wins_counterexample :
    (processRows "01" "02" initLoadState [⟨"a", 7, 1, 2, [1]⟩]).result.map MRec.fields =
      [some 1 :: List.replicate 17 none] ∧
    (processRows "01" "02" initLoadState c2rows).result.map MRec.fields =
      [some 2 :: List.replicate 17 none] ∧
    (processRows "01" "02" initLoadState c2rows).result.length = 1 ∧
    some (2 : ℚ) ≠ some (1 : ℚ) := by
  refine ⟨?_, ?_, ?_, ?_⟩ <;> with_unfolding_all decide

/-- Claim C2 as amended: when the current row has the same unwrapped
counter, X and Y as the last stored record, the row is discarded (the
record count is unchanged and `last_H` and the boundary map are not
touched) and each axis column 5..22 of the stored record is recomputed as
`pyOr cur prev`: the current row's value wins whenever it is non-absent
(and nonzero); only where the current row is absent is the previous value
kept. -/
theorem merge_cur_wins :
    ∀ (m d : String) (st : LoadState) (r : LogRow) (r0 : MRec),
      st.result.getLast? = some r0 →
      r0.counter = r.counter + (counterStep st.lastH st.base r.counter).1 →
      r0.x = r.x → r0.y = r.y →
      ((processRow m d st r).result =
        st.result.dropLast ++
          [⟨r0.time, r0.counter, r0.x, r0.y,
            mergeFields (coerceFields r.fields) r0.fields⟩] ∧
       (processRow m d st r).result.length = st.result.length ∧
       (processRow m d st r).lastH = st.lastH ∧
       (processRow m d st r).flags = st.flags) ∧
      ((∀ b : Option ℚ, pyOr none b = b) ∧
       (∀ (b : Option ℚ) (v : ℚ), v ≠ 0 → pyOr (some v) b = some v)) := by
  intro m d st r r0 hlast hcnt hx hy
  have hne : st.result ≠ [] := by
    intro h
    rw [h] at hlast
    simp at hlast
  have hpos : 0 < st.result.length := List.length_pos.mpr hne
  have hres : (processRow m d st r) =
      ⟨st.lastH, (counterStep st.lastH st.base r.counter).1,
        st.result.dropLast ++
          [⟨r0.time, r0.counter, r0.x, r0.y,
            mergeFields (coerceFields r.fields) r0.fields⟩], st.flags⟩ := by
    simp [processRow, hlast, hcnt, hx, hy]
  refine ⟨⟨?_, ?_, ?_, ?_⟩, ?_, ?_⟩
  · rw [hres]
  · rw [hres]
    simp [List.length_dropLast]
    omega
  · rw [hres]
  · rw [hres]
  · intro b
    simp [pyOr]
  · intro b v hv
    simp [pyOr, hv]

theorem merge_cur_wins_witness :
    (processRow "01" "02"
        (processRows "01" "02" initLoadState [⟨"a", 7, 1, 2, [1]⟩]) ⟨"b", 7, 1, 2, [2]⟩).result =
      (processRows "01" "02" initLoadState [⟨"a", 7, 1, 2, [1]⟩]).result.dropLast ++
        [⟨"01/02 a", 7, 1, 2, mergeFields (coerceFields [2])
          (some 1 :: List.replicate 17 none)⟩] :=
  ((merge_cur_wins "01" "02"
      (processRows "01" "02" initLoadState [⟨"a", 7, 1, 2, [1]⟩]) ⟨"b", 7, 1, 2, [2]⟩
      ⟨"01/02 a", 7, 1, 2, some 1 :: List.replicate 17 none⟩
      (by with_unfolding_all decide) (by with_unfolding_all decide)
      (by with_unfolding_all decide) (by with_unfolding_all decide)).1).1

/-! ## C3: the outlier-detection trace -/

/-- Counterexample to claim C3: the claim says indices 0 and 3 end with
zero weight and that the pairs (0, 1) and (2, 3) are not flagged.  On the
binary64 values the program stores, the pair (0, 1) differs by
0.020000000000000018 > 0.01 and the pair (2, 3) by
0.010000000000000009 > 0.01, so both are flagged at both endpoints, and
the weight rows for indices 0 and 3 are not all-zero. -/
theorem outliers_zero_weight_counterexample :
    (fl001 < |(1 : ℚ) - fl102|) ∧
    (fl001 < |mkRat 3 2 - fl151|) ∧
    (calc_outliers c3data 2 fl001).getD 0 [] ≠ List.replicate 6 0 ∧
    (calc_outliers c3data 2 fl001).getD 3 [] ≠ List.replicate 6 0 := by
  refine ⟨?_, ?_, ?_, ?_⟩ <;> with_unfolding_all decide

/-- Claim C3 as amended: `calc_outliers` with lag 2 and tolerance 0.01 on
the binary64 values of 1.0, 1.02, 1.5, 1.51 produces the per-axis weights
2, 3, 3, 2 on the used axis: every comparison pair exceeds the tolerance
and is flagged at both endpoints — (0, 1) because its difference
0.020000000000000018 exceeds 0.01, and (2, 3) because the stored double of
1.51 minus 1.5 is 0.010000000000000009, strictly above the stored double
of 0.01. -/
theorem outliers_trace_weights :
    calc_outliers c3data 2 fl001 =
      [[2, 0, 0, 0, 0, 0], [3, 0, 0, 0, 0, 0], [3, 0, 0, 0, 0, 0], [2, 0, 0, 0, 0, 0]] := by
  with_unfolding_all decide

/-! ## C7: order of the per-file prechecks -/

/-- Counterexample to claim C7: a non-existent file whose name lacks the
date token is reported as the missing-file error, not the naming error —
the source raises on `path.isfile` before inspecting the filename match. -/
theorem logfile_check_order_counterexample :
    fileNameDate "data.txt" = none ∧
    checkLogFile false "data.txt" = .error .notFoundErr ∧
    PErr.notFoundErr ≠ PErr.namingErr := by
  refine ⟨?_, ?_, ?_⟩ <;> with_unfolding_all decide

/-- Claim C7 as amended: for each log file the existence check runs first —
every non-existent file is reported as `notFoundErr` regardless of its
name — and only for existing files is the filename date token checked,
failing with `namingErr` when it is absent and succeeding with the
month/day pair otherwise. -/
theorem logfile_check_order :
    (∀ name : String, checkLogFile false name = .error .notFoundErr) ∧
    (∀ name : String, fileNameDate name = none → checkLogFile true name = .error .namingErr) ∧
    (∀ (name : String) (md : String × String),
      fileNameDate name = some md → checkLogFile true name = .ok md) := by
  refine ⟨?_, ?_, ?_⟩
  · intro name
    simp [checkLogFile]
  · intro name h
    simp [checkLogFile, h]
  · intro name md h
    simp [checkLogFile, h]

theorem logfile_check_order_witness :
    checkLogFile false "abc" = .error .notFoundErr ∧
    checkLogFile true "data.txt" = .error .namingErr ∧
    checkLogFile true "log_pos0102.dat" = .ok ("01", "02") :=
  ⟨logfile_check_order.1 "abc",
   logfile_check_order.2.1 "data.txt" (by with_unfolding_all decide),
   logfile_check_order.2.2 "log_pos0102.dat" ("01", "02") (by with_unfolding_all decide)⟩

/-! ## C10: packPos is total exactly on the int32 grid -/

/-- Claim C10: `packPos` on numeric coordinates returns an 8-byte key
exactly when both scaled-and-rounded values fit a signed 32-bit integer,
and fails with the `struct.error` kind (no wrapping or truncation)
otherwise. -/
theorem packPos_int32_total :
    ∀ x y : ℚ,
      ((∃ k, packPos (.num x) (.num y) = .ok k ∧ k.length = 8) ↔
        (int32Lo ≤ (getIntPos x y).1 ∧ (getIntPos x y).1 ≤ int32Hi ∧
         int32Lo ≤ (getIntPos x y).2 ∧ (getIntPos x y).2 ≤ int32Hi)) ∧
      (packPos (.num x) (.num y) = .error .structErr ↔
        ¬ (int32Lo ≤ (getIntPos x y).1 ∧ (getIntPos x y).1 ≤ int32Hi ∧
           int32Lo ≤ (getIntPos x y).2 ∧ (getIntPos x y).2 ≤ int32Hi)) := by
  intro x y
  have hunfold : packPos (.num x) (.num y) =
      packPosInts (pyRound (x * 1000)) (pyRound (y * 1000)) := rfl
  have hpos : getIntPos x y = (pyRound (x * 1000), pyRound (y * 1000)) := rfl
  rw [hunfold, hpos, packPosInts]
  by_cases hc : int32Lo ≤ pyRound (x * 1000) ∧ pyRound (x * 1000) ≤ int32Hi ∧
      int32Lo ≤ pyRound (y * 1000) ∧ pyRound (y * 1000) ≤ int32Hi
  · rw [if_pos hc]
    simp only [hc]
    constructor
    · constructor
      · intro _
        simp_all
      · intro _
        exact ⟨_, rfl, by simp [bytesLE4]⟩
    · simp
  · rw [if_neg hc]
    simp only [hc]
    constructor
    · constructor
      · rintro ⟨k, hk, _⟩
        exact absurd hk (by simp)
      · intro h
        simp_all
    · simp_all

/-! ## C8: packPos determinism, text/numeric agreement, injectivity -/

/-- The `<i` little-endian byte encoding is injective on the signed 32-bit
range. -/
theorem bytesLE4_inj {v w : ℤ} (hv1 : int32Lo ≤ v) (hv2 : v ≤ int32Hi)
    (hw1 : int32Lo ≤ w) (hw2 : w ≤ int32Hi) (h : bytesLE4 v = bytesLE4 w) : v = w := by
  simp only [bytesLE4, List.cons.injEq, and_true] at h
  simp only [int32Lo, int32Hi] at hv1 hv2 hw1 hw2
  norm_num at hv1 hv2 hw1 hw2 h
  omega

/-- Claim C8: `packPos` is deterministic (equal arguments give identical
keys), a coordinate given as program-native text produces the same key as
the number it decodes to, and the key is injective on the 1000-times
rounded grid: two numeric coordinate pairs whose scaled-and-rounded
integer pairs differ never produce the same key. -/
theorem packPos_det_txt_inj :
    (∀ x y : PosArg, packPos x y = packPos x y) ∧
    (∀ (sx sy : String) (qx qy : ℚ),
      parseNumber sx 3 true = .ok qx → parseNumber sy 3 true = .ok qy →
      packPos (.txt sx) (.txt sy) = packPos (.num qx) (.num qy)) ∧
    (∀ (x y x' y' : ℚ) (k k' : List ℕ),
      packPos (.num x) (.num y) = .ok k → packPos (.num x') (.num y') = .ok k' →
      getIntPos x y ≠ getIntPos x' y' → k ≠ k') := by
  refine ⟨fun x y => rfl, ?_, ?_⟩
  · intro sx sy qx qy hsx hsy
    simp only [packPos, hsx, hsy]
    rfl
  · intro x y x' y' k k' hk hk' hne
    have hk1 : packPosInts (pyRound (x * 1000)) (pyRound (y * 1000)) = .ok k := hk
    have hk2 : packPosInts (pyRound (x' * 1000)) (pyRound (y' * 1000)) = .ok k' := hk'
    rw [packPosInts] at hk1 hk2
    by_cases hc1 : int32Lo ≤ pyRound (x * 1000) ∧ pyRound (x * 1000) ≤ int32Hi ∧
        int32Lo ≤ pyRound (y * 1000) ∧ pyRound (y * 1000) ≤ int32Hi
    · by_cases hc2 : int32Lo ≤ pyRound (x' * 1000) ∧ pyRound (x' * 1000) ≤ int32Hi ∧
          int32Lo ≤ pyRound (y' * 1000) ∧ pyRound (y' * 1000) ≤ int32Hi
      · rw [if_pos hc1] at hk1
        rw [if_pos hc2] at hk2
        intro heq
        have hbytes : bytesLE4 (pyRound (x * 1000)) ++ bytesLE4 (pyRound (y * 1000)) =
            bytesLE4 (pyRound (x' * 1000)) ++ bytesLE4 (pyRound (y' * 1000)) := by
          have e1 := Except.ok.inj hk1
          have e2 := Except.ok.inj hk2
          rw [e1, e2]
          exact heq
        have hlen : (bytesLE4 (pyRound (x * 1000))).length =
            (bytesLE4 (pyRound (x' * 1000))).length := by simp [bytesLE4]
        obtain ⟨hbx, hby⟩ := List.append_inj hbytes hlen
        have ex := bytesLE4_inj hc1.1 hc1.2.1 hc2.1 hc2.2.1 hbx
        have ey := bytesLE4_inj hc1.2.2.1 hc1.2.2.2 hc2.2.2.1 hc2.2.2.2 hby
        exact hne (by simp [getIntPos, ex, ey])
      · rw [if_neg hc2] at hk2
        exact absurd hk2 (by simp)
    · rw [if_neg hc1] at hk1
      exact absurd hk1 (by simp)

theorem packPos_det_txt_inj_witness :
    packPos (.txt "001") (.txt "002") = packPos (.num 1) (.num 2) ∧
    [232, 3, 0, 0, 208, 7, 0, 0] ≠ [184, 11, 0, 0, 208, 7, 0, 0] :=
  ⟨packPos_det_txt_inj.2.1 "001" "002" 1 2 (by with_unfolding_all decide)
      (by with_unfolding_all decide),
   packPos_det_txt_inj.2.2 1 2 3 2 [232, 3, 0, 0, 208, 7, 0, 0]
      [184, 11, 0, 0, 208, 7, 0, 0] (by with_unfolding_all decide)
      (by with_unfolding_all decide) (by with_unfolding_all decide)⟩

/-! ## C5: prgPos range check and output shape -/

theorem head_dropWhile_zero_ne (l : List Char) :
    (l.dropWhile (· = '0')).head? ≠ some '0' := by
  induction l with
  | nil => simp
  | cons c t ih =>
    by_cases h : c = '0'
    · simpa [List.dropWhile, h] using ih
    · simp [List.dropWhile, h]

theorem rstripZeros_getLast (l : List Char) : (rstripZeros l).getLast? ≠ some '0' := by
  rw [rstripZeros, List.getLast?_reverse]
  exact head_dropWhile_zero_ne l.reverse

theorem coordDigits_ne_nil (v : ℚ) : coordDigits v ≠ [] := by
  rw [coordDigits]
  split
  · simp
  · assumption

theorem coordDigits_no_trailing_zero (v : ℚ) :
    coordDigits v = ['0'] ∨ (coordDigits v).getLast? ≠ some '0' := by
  rw [coordDigits]
  split
  · left
    rfl
  · right
    exact rstripZeros_getLast _

/-- Claim C5: `prgPos` fails with the range error exactly when the absolute
value of either coordinate reaches 1000; on in-range inputs it returns
`X{sign}{digits}Y{sign}{digits}` where each digit part is the absolute
scaled-and-rounded value left-padded to 6 digits with trailing zeros
stripped (`coordDigits`), which is never empty and never keeps a trailing
zero except as the single digit 0. -/
theorem prgPos_range_shape :
    ∀ x y : ℚ,
      (prgPos x y = .error .rangeErr ↔ 1000 ≤ |x| ∨ 1000 ≤ |y|) ∧
      (|x| < 1000 → |y| < 1000 →
        prgPos x y = .ok (String.mk
          ('X' :: ((if x < 0 then ['-'] else []) ++ coordDigits x ++
            'Y' :: ((if y < 0 then ['-'] else []) ++ coordDigits y)))) ∧
        coordDigits x ≠ [] ∧ coordDigits y ≠ [] ∧
        (coordDigits x = ['0'] ∨ (coordDigits x).getLast? ≠ some '0') ∧
        (coordDigits y = ['0'] ∨ (coordDigits y).getLast? ≠ some '0')) := by
  intro x y
  constructor
  · rw [prgPos]
    by_cases hc : 1000 ≤ |x| ∨ 1000 ≤ |y|
    · simp [hc]
    · simp [hc]
  · intro hx hy
    have hc : ¬ (1000 ≤ |x| ∨ 1000 ≤ |y|) := by
      push_neg
      exact ⟨hx, hy⟩
    refine ⟨?_, coordDigits_ne_nil x, coordDigits_ne_nil y,
      coordDigits_no_trailing_zero x, coordDigits_no_trailing_zero y⟩
    rw [prgPos, if_neg hc]

theorem prgPos_range_shape_witness :
    prgPos 1 0 = .ok (String.mk
      ('X' :: ((if (1 : ℚ) < 0 then ['-'] else []) ++ coordDigits 1 ++
        'Y' :: ((if (0 : ℚ) < 0 then ['-'] else []) ++ coordDigits 0)))) :=
  (((prgPos_range_shape 1 0).2 (by norm_num) (by norm_num))).1

/-! ## C4: the shift-offset equations -/

/-- Counterexample to claim C4: `judgeShift` on the single pair with
machine coordinates (0, 10) and program coordinates (0, 3) (scaled by
1000) returns the offset (0, 13), but the claimed equation
machineY + dy = programY fails there: 10 + 13 is not 3.  The source
computes dy as machineY + programY, not programY - machineY. -/
theorem shift_y_equation_counterexample :
    judgeShift [(0, 10000)] [(0, 3000)] = some (some (0, 13)) ∧
    ¬ ((10000 : ℚ) / 1000 + 13 = (3000 : ℚ) / 1000) := by
  constructor
  · with_unfolding_all decide
  · norm_num

/-- Soundness of a found offset: every zipped pair satisfies
machineX - dx = programX and dy - machineY = programY (real units). -/
theorem judgeShift_found_eqns :
    ∀ (dp pp : List (ℤ × ℤ)) (dx dy : ℚ),
      judgeShift dp pp = some (some (dx, dy)) →
      ∀ p ∈ dp.zip pp,
        (p.1.1 : ℚ) / 1000 - dx = (p.2.1 : ℚ) / 1000 ∧
        dy - (p.1.2 : ℚ) / 1000 = (p.2.2 : ℚ) / 1000 := by
  intro dp pp dx dy h p hp
  rw [judgeShift] at h
  by_cases hlen : dp.length ≠ pp.length
  · rw [if_pos hlen] at h
    simp at h
  · rw [if_neg hlen] at h
    rcases hz : dp.zip pp with _ | ⟨⟨m, n⟩, rest⟩
    · rw [hz] at hp
      simp at hp
    · rw [hz] at h hp
      dsimp only at h
      by_cases hall : (rest.all fun p =>
          decide (p.1.1 - p.2.1 = m.1 - n.1 ∧ p.1.2 + p.2.2 = m.2 + n.2)) = true
      · rw [if_pos hall] at h
        have hpair := Option.some.inj (Option.some.inj h)
        have hd1 : ((m.1 : ℚ) - n.1) / 1000 = dx := by
          have := congrArg Prod.fst hpair
          push_cast at this
          exact this
        have hd2 : ((m.2 : ℚ) + n.2) / 1000 = dy := by
          have := congrArg Prod.snd hpair
          push_cast at this
          exact this
        rcases List.mem_cons.mp hp with hph | hpr
        · subst hph
          rw [← hd1, ← hd2]
          constructor <;> ring
        · have hall2 := List.all_eq_true.mp hall p hpr
          have hprop : p.1.1 - p.2.1 = m.1 - n.1 ∧ p.1.2 + p.2.2 = m.2 + n.2 :=
            of_decide_eq_true hall2
          have c1 : (p.1.1 : ℚ) - p.2.1 = (m.1 : ℚ) - n.1 := by exact_mod_cast hprop.1
          have c2 : (p.1.2 : ℚ) + p.2.2 = (m.2 : ℚ) + n.2 := by exact_mod_cast hprop.2
          rw [← hd1, ← hd2]
          constructor
          · field_simp
            linarith
          · field_simp
            linarith
      · rw [if_neg hall] at h
        simp at h

/-- Claim C4 as amended: when `judgeShift` returns an offset (dx, dy),
every sampled machine/program pair satisfies machineX - dx = programX and
dy - machineY = programY (the source computes dy as machineY + programY,
and the caller recovers programY as dy - machineY); and whenever no single
(dx, dy) satisfies those equations for all paired samples, no offset is
returned. -/
theorem judgeShift_offset_spec :
    ∀ (dp pp : List (ℤ × ℤ)) (dx dy : ℚ),
      (judgeShift dp pp = some (some (dx, dy)) →
        ∀ p ∈ dp.zip pp,
          (p.1.1 : ℚ) / 1000 - dx = (p.2.1 : ℚ) / 1000 ∧
          dy - (p.1.2 : ℚ) / 1000 = (p.2.2 : ℚ) / 1000) ∧
      ((¬ ∃ dx' dy' : ℚ, ∀ p ∈ dp.zip pp,
          (p.1.1 : ℚ) / 1000 - dx' = (p.2.1 : ℚ) / 1000 ∧
          dy' - (p.1.2 : ℚ) / 1000 = (p.2.2 : ℚ) / 1000) →
        judgeShift dp pp ≠ some (some (dx, dy))) := by
  intro dp pp dx dy
  refine ⟨judgeShift_found_eqns dp pp dx dy, ?_⟩
  intro hne h
  exact hne ⟨dx, dy, judgeShift_found_eqns dp pp dx dy h⟩

theorem judgeShift_offset_spec_witness :
    (1000 : ℚ) / 1000 - 1/2 = (500 : ℚ) / 1000 ∧
    (23 : ℚ) / 10 - (2000 : ℚ) / 1000 = (300 : ℚ) / 1000 :=
  (judgeShift_offset_spec [(1000, 2000)] [(500, 300)] (1/2) (23/10)).1
    (by with_unfolding_all decide) ((1000, 2000), (500, 300)) (by with_unfolding_all decide)

/-! ## C6: which tool-select lines enable shift sampling -/

/-- A line matching the shift tool pattern `T0?[2-9]` never matches the
position pattern. -/
theorem toolShift_not_pos {s : String} (h : toolShiftMatch s = true) : posMatch s = none := by
  unfold toolShiftMatch at h
  unfold posMatch
  rcases hd : s.data with _ | ⟨c0, _ | ⟨c1, _ | ⟨c2, _ | ⟨c3, t⟩⟩⟩⟩ <;> simp_all

/-- Prepend an already collected prefix to a sampling result. -/
def withPrepended (acc : List (ℤ × ℤ)) (e : Except PErr (List (ℤ × ℤ))) :
    Except PErr (List (ℤ × ℤ)) :=
  match e with
  | .error err => .error err
  | .ok vs => .ok (acc ++ vs)

/-- Decode a list of position-line groups in order, failing on the first
undecodable group. -/
def parsePosList : List (String × String) → Except PErr (List (ℤ × ℤ))
  | [] => .ok []
  | p :: ps => do
    let v ← parsePos p
    let vs ← parsePosList ps
    .ok (v :: vs)

theorem except_bind_ok {ε α β : Type} (a : α) (f : α → Except ε β) :
    (Except.ok a : Except ε α) >>= f = f a := rfl

theorem except_bind_err {ε α β : Type} (e : ε) (f : α → Except ε β) :
    (Except.error e : Except ε α) >>= f = .error e := rfl

/-- Once the sampling flag is set it never clears: the scan collects the
next `sample - acc.length` decodable position lines. -/
theorem samplePrgGo_true (sample : ℕ) :
    ∀ (ls : List String) (acc : List (ℤ × ℤ)), acc.length < sample →
      samplePrgGo sample ls true acc =
        withPrepended acc (parsePosList ((posLinesOf ls).take (sample - acc.length))) := by
  intro ls
  induction ls with
  | nil =>
    intro acc hlt
    simp [samplePrgGo, posLinesOf, parsePosList, withPrepended]
  | cons l ls ih =>
    intro acc hlt
    have hne : acc.length ≠ sample := by omega
    by_cases ht : toolShiftMatch l = true
    · have hpos := toolShift_not_pos ht
      have hstep : lineStep true acc l = .ok (true, acc) := by simp [lineStep, ht]
      have hlines : posLinesOf (l :: ls) = posLinesOf ls := by simp [posLinesOf, hpos]
      rw [samplePrgGo, hstep, except_bind_ok]
      rw [if_neg hne, ih acc hlt, hlines]
    · rcases hpm : posMatch l with _ | ⟨sx, sy⟩
      · have hstep : lineStep true acc l = .ok (true, acc) := by simp [lineStep, ht, hpm]
        have hlines : posLinesOf (l :: ls) = posLinesOf ls := by simp [posLinesOf, hpm]
        rw [samplePrgGo, hstep, except_bind_ok]
        rw [if_neg hne, ih acc hlt, hlines]
      · obtain ⟨k, hk⟩ : ∃ k, sample - acc.length = k + 1 :=
          ⟨sample - acc.length - 1, by omega⟩
        have hlines : posLinesOf (l :: ls) = (sx, sy) :: posLinesOf ls := by
          simp [posLinesOf, hpm]
        have htake : (posLinesOf (l :: ls)).take (sample - acc.length) =
            (sx, sy) :: (posLinesOf ls).take k := by
          rw [hlines, hk, List.take_succ_cons]
        rcases hqx : parseNumber sx 3 true with e | qx
        · have hstep : lineStep true acc l = .error e := by
            simp [lineStep, ht, hpm, hqx, except_bind_err]
          have hpp : parsePos (sx, sy) = .error e := by
            simp [parsePos, hqx, except_bind_err]
          rw [samplePrgGo, hstep, except_bind_err, htake, parsePosList, hpp, except_bind_err]
          rfl
        · rcases hqy : parseNumber sy 3 true with e | qy
          · have hstep : lineStep true acc l = .error e := by
              simp [lineStep, ht, hpm, hqx, hqy, except_bind_ok, except_bind_err]
            have hpp : parsePos (sx, sy) = .error e := by
              simp [parsePos, hqx, hqy, except_bind_ok, except_bind_err]
            rw [samplePrgGo, hstep, except_bind_err, htake, parsePosList, hpp, except_bind_err]
            rfl
          · have hstep : lineStep true acc l =
                .ok (true, acc ++ [(pyRound (qx * 1000), pyRound (qy * 1000))]) := by
              simp [lineStep, ht, hpm, hqx, hqy, except_bind_ok]
            have hpp : parsePos (sx, sy) = .ok (pyRound (qx * 1000), pyRound (qy * 1000)) := by
              simp [parsePos, hqx, hqy, except_bind_ok]
            rw [samplePrgGo, hstep, except_bind_ok, htake, parsePosList, hpp, except_bind_ok]
            by_cases hfull : (acc ++ [(pyRound (qx * 1000), pyRound (qy * 1000))]).length = sample
            · rw [if_pos hfull]
              have h0 : k = 0 := by
                simp at hfull
                omega
              rw [h0]
              simp [parsePosList, withPrepended, except_bind_ok]
            · rw [if_neg hfull]
              have hlt2 : (acc ++ [(pyRound (qx * 1000), pyRound (qy * 1000))]).length < sample := by
                simp at hfull ⊢
                omega
              rw [ih _ hlt2]
              have harith : sample - (acc ++ [(pyRound (qx * 1000), pyRound (qy * 1000))]).length = k := by
                simp
                omega
              rw [harith]
              rcases parsePosList ((posLinesOf ls).take k) with e | vs
              · rfl
              · simp [withPrepended, except_bind_ok]

/-- Counterexample to claim C6: the sampler's tool pattern is `T0?[2-9]`
only.  In `["T03", "T1", "X001Y001"]` the position line follows the
tool-select line `T1` (its nearest preceding tool line), yet it is sampled
because the flag set by `T03` is never cleared — contradicting "positions
under T1 are never sampled".  And in `["T10", "X001Y001"]` the position
under `T10` is not sampled at all — contradicting "tool IDs from T02
upward" making tools T10..T99 eligible. -/
theorem shift_sampler_counterexample :
    samplePrgPos ["T03", "T1", "X001Y001"] 10 = .ok [(1000, 1000)] ∧
    toolSelectMatch "T1" = true ∧ toolShiftMatch "T1" = false ∧
    samplePrgPos ["T10", "X001Y001"] 10 = .ok [] ∧
    toolSelectMatch "T10" = true ∧ toolShiftMatch "T10" = false := by
  refine ⟨?_, ?_, ?_, ?_, ?_, ?_⟩ <;> with_unfolding_all decide

/-- Claim C6 as amended: the shift sampler enables collection at the first
tool-select line matching `T0?[2-9]` (T2–T9 or T02–T09) and never disables
it; it then samples exactly the first `sample` decodable position lines
after that line, regardless of any later tool-select lines (T1, T10–T99 or
anything else neither enable nor disable sampling). -/
theorem samplePrgPos_spec_c6 :
    ∀ (ls : List String) (sample : ℕ),
      samplePrgPos ls sample = parsePosList ((posLinesOf (enabledTail ls)).take sample) := by
  intro ls sample
  rw [samplePrgPos]
  induction ls with
  | nil => simp [samplePrgGo, enabledTail, posLinesOf, parsePosList]
  | cons l ls ih =>
    by_cases ht : toolShiftMatch l = true
    · have hstep : lineStep false [] l = .ok (true, []) := by simp [lineStep, ht]
      have htail : enabledTail (l :: ls) = ls := by simp [enabledTail, ht]
      rw [samplePrgGo, hstep, except_bind_ok, htail]
      by_cases hs : sample = 0
      · subst hs
        simp [parsePosList]
      · have h0 : ([] : List (ℤ × ℤ)).length ≠ sample := by simpa using Ne.symm hs
        rw [if_neg h0]
        rw [samplePrgGo_true sample ls [] (by simpa using Nat.pos_of_ne_zero hs)]
        simp only [List.length_nil, Nat.sub_zero]
        rcases parsePosList ((posLinesOf ls).take sample) with e | vs
        · rfl
        · simp [withPrepended]
    · have hstep : lineStep false [] l = .ok (false, []) := by simp [lineStep, ht]
      have htail : enabledTail (l :: ls) = enabledTail ls := by simp [enabledTail, ht]
      rw [samplePrgGo, hstep, except_bind_ok, htail]
      by_cases hs : sample = 0
      · subst hs
        simp [parsePosList]
      · have h0 : ([] : List (ℤ × ℤ)).length ≠ sample := by simpa using Ne.symm hs
        rw [if_neg h0]
        exact ih
